import Mathlib

/-!
Verification of the relay repository's command classifier
(`extensions/codex-cli/src/commandSummary.ts`) and agent-view event reducer
(`extensions/codex-cli/src/agentView.ts`), as a shallow embedding in Lean.

Strings are modelled as Lean `String`s (sequences of unicode scalar values,
matching JavaScript iteration over code points); JavaScript `undefined` for an
optional field is modelled as `Option.none`; JavaScript string truthiness
(`s ? a : b`) is modelled explicitly via `truthy`.  Machine numbers that the
source produces are all small non-negative line counts, modelled as `Nat`
(with `Int` where a JavaScript value can be negative).
-/

namespace Relay

/-- The JavaScript `\s` character class (whitespace as used by `String.trim`
and the tokenizer's `/\s/` test). -/
def jsIsSpace (c : Char) : Bool :=
  c = ' ' || c = '\t' || c = '\n' || c = '\r' ||
  c.toNat = 11 || c.toNat = 12 || c.toNat = 0xa0 || c.toNat = 0x1680 ||
  (0x2000 ≤ c.toNat && c.toNat ≤ 0x200a) ||
  c.toNat = 0x2028 || c.toNat = 0x2029 || c.toNat = 0x202f ||
  c.toNat = 0x205f || c.toNat = 0x3000 || c.toNat = 0xfeff

/-- JavaScript `String.prototype.trim`: strip `\s` characters from both ends. -/
def jsTrim (s : String) : String :=
  String.mk (((s.toList.dropWhile jsIsSpace).reverse.dropWhile jsIsSpace).reverse)

/-- Value of a non-empty list of decimal digit characters. -/
def natOfDigits (l : List Char) : Nat :=
  l.foldl (fun acc c => acc * 10 + (c.toNat - 48)) 0

/-- JavaScript `Number.parseInt(s, 10)`, as called at both source call sites
(the radix argument is always 10, so a `0x` prefix is not hexadecimal —
parsing stops at the `x`): skip leading whitespace, read an optional sign,
then the longest prefix of decimal digits; `none` models `NaN` (no digits
found). -/
def jsParseInt (s : String) : Option Int :=
  let l := s.toList.dropWhile jsIsSpace
  let signAndRest : Int × List Char :=
    match l with
    | '-' :: t => (-1, t)
    | '+' :: t => (1, t)
    | _ => (1, l)
  let sign := signAndRest.1
  let l1 := signAndRest.2
  let ds := l1.takeWhile Char.isDigit
  if ds = [] then none else some (sign * (natOfDigits ds : Int))

/-- JavaScript truthiness of an optional string: `undefined` and `""` are
falsy.  `truthy o = some v` exactly when the JS value is a non-empty string. -/
def truthy (o : Option String) : Option String :=
  match o with
  | some s => if s = "" then none else some s
  | none => none

/-- JavaScript `String.prototype.startsWith`, decided on the underlying
character sequences (kept at the list level so that terms reduce). -/
def strStartsWith (s pre : String) : Bool :=
  pre.toList.isPrefixOf s.toList

/-- JavaScript `String.prototype.endsWith` on the character sequences. -/
def strEndsWith (s suf : String) : Bool :=
  suf.toList.isSuffixOf s.toList

/-- Embedding of `split` at a single-character separator (as used with `'/'` and
newlines); matches `String.splitOn` for one-character separators. -/
def splitOnCharGo (sep : Char) : List Char → List Char → List String
  | [], cur => [String.mk cur.reverse]
  | c :: rest, cur =>
    if c = sep then String.mk cur.reverse :: splitOnCharGo sep rest []
    else splitOnCharGo sep rest (c :: cur)

def splitOnChar (sep : Char) (s : String) : List String :=
  splitOnCharGo sep s.toList []

/-- Embedding of `String.prototype.toLowerCase` (ASCII range, which covers the `kind`
values the reducer lowercases). -/
def jsToLower (s : String) : String :=
  String.mk (s.toList.map Char.toLower)

/-! ### Node `path` (posix flavour), as used by the classifier -/

/-- Node posix `path.basename`: last non-empty segment; a path of only
slashes yields `"/"`; the empty path yields `""`. -/
def pathBasename (s : String) : String :=
  let l := s.toList
  let noTrail := (l.reverse.dropWhile (fun c => c = '/')).reverse
  if noTrail = [] then (if l = [] then "" else "/")
  else String.mk ((noTrail.reverse.takeWhile (fun c => c ≠ '/')).reverse)

/-- Node posix `path.isAbsolute`. -/
def pathIsAbsolute (p : String) : Bool :=
  strStartsWith p "/"

/-- Embedding of `isAbsLike` from commandSummary.ts: posix-absolute, a Windows drive path
(`/^[A-Za-z]:\\/`), or a UNC path (leading `\\\\`). -/
def isAbsLike (p : String) : Bool :=
  pathIsAbsolute p ||
  (match p.toList with
   | c :: ':' :: '\\' :: _ => c.isAlpha
   | _ => false) ||
  strStartsWith p "\\\\"

/-- Segment resolution of Node posix `path.normalize`: `.` and empty segments
are dropped; `..` pops the previous segment, or is kept (relative paths) /
dropped (absolute paths) when there is nothing to pop. -/
def normSegs (allowAboveRoot : Bool) : List String → List String → List String
  | [], acc => acc.reverse
  | seg :: rest, acc =>
    if seg = "" || seg = "." then normSegs allowAboveRoot rest acc
    else if seg = ".." then
      match acc with
      | [] => if allowAboveRoot then normSegs allowAboveRoot rest (".." :: acc)
              else normSegs allowAboveRoot rest acc
      | top :: acc2 =>
        if top = ".." then
          (if allowAboveRoot then normSegs allowAboveRoot rest (".." :: acc)
           else normSegs allowAboveRoot rest acc)
        else normSegs allowAboveRoot rest acc2
    else normSegs allowAboveRoot rest (seg :: acc)

/-- Node posix `path.normalize`. -/
def pathNormalize (p : String) : String :=
  if p = "" then "."
  else
    let isAbs := strStartsWith p "/"
    let trailingSep := strEndsWith p "/"
    let body := String.intercalate "/" (normSegs (!isAbs) (splitOnChar '/' p) [])
    if body = "" then
      (if isAbs then "/" else if trailingSep then "./" else ".")
    else
      let body := if trailingSep then body ++ "/" else body
      if isAbs then "/" ++ body else body

/-- Node posix `path.join(a, b)`: drop empty arguments, join with `/`,
normalize; all-empty input yields `"."`. -/
def pathJoin2 (a b : String) : String :=
  let parts := [a, b].filter (fun s => s ≠ "")
  if parts = [] then "." else pathNormalize (String.intercalate "/" parts)

/-- Embedding of `joinPaths` from commandSummary.ts. -/
def joinPaths (base rel : String) : String :=
  if isAbsLike rel then rel else pathNormalize (pathJoin2 base rel)

/-- The noise-directory set of `shortDisplayPath`. -/
def displayDropSet : List String := ["build", "dist", "node_modules", "src"]

/-- Embedding of `shortDisplayPath` from commandSummary.ts: normalize backslashes, strip
trailing slashes, and pick the last path segment that is not a noise
directory; fall back to the whole normalized path, or the input if that is
empty. -/
def shortDisplayPath (input : String) : String :=
  let normalized :=
    String.mk (((input.toList.map (fun c => if c = '\\' then '/' else c)).reverse.dropWhile
      (fun c => c = '/')).reverse)
  let parts := (splitOnChar '/' normalized).filter (fun s => s ≠ "")
  match parts.reverse.find? (fun part => !displayDropSet.contains part) with
  | some part => part
  | none => if normalized = "" then input else normalized

/-- Embedding of `isShell` from commandSummary.ts. -/
def isShell (token : String) : Bool :=
  let base := pathBasename token
  base = "bash" || base = "zsh" || base = "sh"

/-! ### Shell-style tokenizer -/

/-- One step state-machine of `shellSplit`: current (reversed) token, open
quote, pending backslash escape. -/
def shellSplitGo : List Char → List Char → Option Char → Bool → List String
  | [], cur, _, _ => if cur = [] then [] else [String.mk cur.reverse]
  | ch :: rest, cur, quote, escaped =>
    if escaped then shellSplitGo rest (ch :: cur) quote false
    else if ch = '\\' && quote ≠ some '\'' then shellSplitGo rest cur quote true
    else
      match quote with
      | some q =>
        if ch = q then shellSplitGo rest cur none false
        else shellSplitGo rest (ch :: cur) quote false
      | none =>
        if ch = '"' || ch = '\'' then shellSplitGo rest cur (some ch) false
        else if jsIsSpace ch then
          (if cur = [] then shellSplitGo rest [] none false
           else String.mk cur.reverse :: shellSplitGo rest [] none false)
        else shellSplitGo rest (ch :: cur) none false

/-- Embedding of `shellSplit` from commandSummary.ts: whitespace splitting honouring
single/double quotes and backslash escapes (escapes disabled inside single
quotes). -/
def shellSplit (input : String) : List String :=
  shellSplitGo input.toList [] none false

/-- Embedding of `unwrapQuotes` from commandSummary.ts. -/
def unwrapQuotes (text : String) : String :=
  if text.length ≥ 2 &&
     ((strStartsWith text "\"" && strEndsWith text "\"") ||
      (strStartsWith text "\'" && strEndsWith text "\'")) then
    String.mk (text.toList.drop 1).dropLast
  else text

/-- Pipeline connector tokens. -/
def isConnector (t : String) : Bool :=
  t = "&&" || t = "||" || t = "|" || t = ";"

/-- Embedding of `splitOnConnectors` from commandSummary.ts (accumulator is reversed). -/
def splitOnConnectorsGo : List String → List String → List (List String)
  | [], cur => if cur = [] then [] else [cur.reverse]
  | t :: rest, cur =>
    if isConnector t then
      (if cur = [] then splitOnConnectorsGo rest []
       else cur.reverse :: splitOnConnectorsGo rest [])
    else splitOnConnectorsGo rest (t :: cur)

def splitOnConnectors (tokens : List String) : List (List String) :=
  splitOnConnectorsGo tokens []

/-- Embedding of `trimAtConnector`: tokens before the first connector (`slice(0, idx)` of
the first connector index, i.e. `takeWhile`). -/
def trimAtConnector (tokens : List String) : List String :=
  tokens.takeWhile (fun t => !isConnector t)

def joinTokens (tokens : List String) : String :=
  String.intercalate " " tokens

/-! ### sed range parsing -/

/-- Strip a trailing `p` (`arg.endsWith('p') ? arg.slice(0, -1) : arg`),
working on the character list. -/
def sedRangeCore (a : String) : List Char :=
  let l := a.toList
  if l.getLast? = some 'p' then l.dropLast else l

/-- Embedding of `isValidSedRange`: the stripped core must match `/^(\d+|\d+,\d+)$/`
(decided by splitting at the first non-digit).  A missing or empty argument
is falsy and invalid. -/
def isValidSedRange (arg : Option String) : Bool :=
  match arg with
  | none => false
  | some a =>
    if a = "" then false
    else
      let core := sedRangeCore a
      let d1 := core.takeWhile Char.isDigit
      let rest := core.dropWhile Char.isDigit
      decide (d1 ≠ []) &&
        (match rest with
         | [] => true
         | ',' :: t => decide (t ≠ []) && t.all Char.isDigit
         | _ => false)

/-- Embedding of `parseSedRange`: for a valid range, `lineStart = max(0, start-1)` (`Nat`
subtraction), and `lineEnd = max(0, end-1)` except that a parsed end of `0`
is falsy in `endNum && Number.isFinite(endNum)` and defaults to `lineStart`,
as does a single-number range.  (`core.split(',')` of a valid core equals
splitting at the first non-digit.) -/
def parseSedRange (arg : Option String) : Option (Option Nat × Option Nat) :=
  if !isValidSedRange arg then none
  else
    match arg with
    | none => none
    | some a =>
      let core := sedRangeCore a
      let startRaw := core.takeWhile Char.isDigit
      let endRaw : Option (List Char) :=
        match core.dropWhile Char.isDigit with
        | ',' :: t => some t
        | _ => none
      let startNum := natOfDigits startRaw
      let lineStart : Option Nat := some (startNum - 1)
      let lineEnd : Option Nat :=
        match endRaw with
        | some t => if natOfDigits t ≠ 0 then some (natOfDigits t - 1) else lineStart
        | none => lineStart
      some (lineStart, lineEnd)

/-! ### Flag-skipping helpers -/

/-- Embedding of `skipFlagValues`: drop `--flag=value` tokens, drop each listed
value-bearing flag together with the single token after it, and stop flag
processing at a bare `--` (all later tokens are kept verbatim). -/
def skipFlagValues (args flagsWithValues : List String) : List String :=
  match args with
  | [] => []
  | a :: rest =>
    if a = "--" then rest
    else if strStartsWith a "--" && a.toList.contains '=' then
      skipFlagValues rest flagsWithValues
    else if flagsWithValues.contains a then
      (match rest with
       | [] => []
       | _ :: rest2 => skipFlagValues rest2 flagsWithValues)
    else a :: skipFlagValues rest flagsWithValues

/-- Embedding of `firstPositional`: first surviving token that does not begin with `-`. -/
def firstPositional (args flagsWithValues : List String) : Option String :=
  (skipFlagValues args flagsWithValues).find? (fun a => !strStartsWith a "-")

/-- Embedding of `findFlagValue`: the token after the first listed flag that is followed
by a truthy token. -/
def findFlagValue : List String → List String → Option String
  | [], _ => none
  | a :: rest, flags =>
    if flags.contains a && (match rest.head? with
                            | some next => next ≠ ""
                            | none => false) then rest.head?
    else findFlagValue rest flags

/-- Embedding of `extractHeadTailPath`: strip a leading `-n <count>` or `-n<count>` (index
0 only), then take the first token not beginning with `-`. -/
def extractHeadTailPath (args : List String) : Option String :=
  let argsNoConnector := trimAtConnector args
  let stripped :=
    match argsNoConnector with
    | [] => []
    | a :: rest =>
      if a = "-n" then rest.drop 1
      else if strStartsWith a "-n" then rest
      else a :: rest
  stripped.find? (fun a => !strStartsWith a "-")

/-- Loop of `parseHeadMeta`: scan for `-n <num>` / `-n<num>`, remembering the
most recent count (`none` models `NaN` → `undefined`), and collect the other
tokens. -/
def parseHeadMetaGo : List String → Option Int → List String → Option Int × List String
  | [], count, acc => (count, acc.reverse)
  | [a], count, acc =>
    if a = "-n" then parseHeadMetaGo [] count (a :: acc)
    else if strStartsWith a "-n" then parseHeadMetaGo [] (jsParseInt (a.drop 2)) acc
    else parseHeadMetaGo [] count (a :: acc)
  | a :: next :: rest2, count, acc =>
    if a = "-n" then
      (if next ≠ "" && !strStartsWith next "-" then
         parseHeadMetaGo rest2 (jsParseInt next) acc
       else parseHeadMetaGo (next :: rest2) count (a :: acc))
    else if strStartsWith a "-n" then
      parseHeadMetaGo (next :: rest2) (jsParseInt (a.drop 2)) acc
    else parseHeadMetaGo (next :: rest2) count (a :: acc)

/-- Embedding of `parseHeadMeta`: path (truthy check is at the call site), `lineStart = 0`,
and `lineEnd = count-1` when a positive count was parsed. -/
def parseHeadMeta (args : List String) : Option (String × Option Nat × Option Nat) :=
  let argsNoConnector := trimAtConnector args
  let res := parseHeadMetaGo argsNoConnector none []
  match res.2.find? (fun a => !strStartsWith a "-") with
  | none => none
  | some p =>
    let lineEnd : Option Nat :=
      match res.1 with
      | some n => if n > 0 then some (n - 1).toNat else none
      | none => none
    some (p, some 0, lineEnd)

/-! ### Classifier data model -/

/-- Embedding of `ParsedKind` from commandSummary.ts. -/
inductive ParsedKind
  | read
  | list
  | search
  | unknown
deriving DecidableEq, Repr

/-- Embedding of `ParsedCommand` from commandSummary.ts; optional fields are `none` when
the JavaScript object leaves them `undefined`. -/
structure ParsedCommand where
  kind : ParsedKind
  raw : String
  name : Option String := none
  path : Option String := none
  query : Option String := none
  lineStart : Option Nat := none
  lineEnd : Option Nat := none
deriving DecidableEq, Repr

/-- Embedding of `CommandSummary` from commandSummary.ts. -/
structure CommandSummary where
  title : String
  summary : String
  displayCommand : String
  parsed : List ParsedCommand
deriving DecidableEq, Repr

/-- Value-bearing flags skipped for `ls`. -/
def lsValueFlags : List String :=
  ["-I", "-w", "--block-size", "--format", "--time-style", "--color", "--quoting-style"]

/-- Value-bearing flags skipped for `fd`. -/
def fdValueFlags : List String :=
  ["-t", "--type", "-e", "--extension", "-E", "--exclude", "--search-path"]

/-- Embedding of `summarizeMainTokens` from commandSummary.ts: classify one pipeline stage
by its head token.  Every `break` in the source switch falls through to the
final opaque result `{kind: unknown, raw: joinTokens(tokens)}`. -/
def summarizeMainTokens (tokens : List String) : ParsedCommand :=
  match tokens with
  | [] => { kind := ParsedKind.unknown, raw := joinTokens tokens }
  | head :: tail =>
    if head = "ls" then
      let pathArg := firstPositional tail lsValueFlags
      { kind := ParsedKind.list,
        raw := joinTokens tokens,
        path := some (pathArg.getD "."),
        name := some (match truthy pathArg with
                      | some p => shortDisplayPath p
                      | none => ".") }
    else if head = "rg" then
      let argsNoConnector := trimAtConnector tail
      let hasFilesFlag := argsNoConnector.contains "--files"
      let nonFlags := argsNoConnector.filter (fun a => !strStartsWith a "-")
      let query := if hasFilesFlag then none else nonFlags.head?
      let pathArg := if hasFilesFlag then nonFlags.head? else nonFlags.get? 1
      { kind := ParsedKind.search,
        raw := joinTokens tokens,
        query := query,
        path := pathArg,
        name := (truthy pathArg).map shortDisplayPath }
    else if head = "fd" then
      let argsNoConnector := trimAtConnector tail
      let candidates := skipFlagValues argsNoConnector fdValueFlags
      let nonFlags := candidates.filter (fun a => !strStartsWith a "-")
      { kind := ParsedKind.search,
        raw := joinTokens tokens,
        query := nonFlags.head?,
        path := nonFlags.get? 1,
        name := (truthy (nonFlags.get? 1)).map shortDisplayPath }
    else if head = "find" then
      let argsNoConnector := trimAtConnector tail
      let pathArg := argsNoConnector.find?
        (fun a => !strStartsWith a "-" && a ≠ "!" && a ≠ "(" && a ≠ ")")
      let query := findFlagValue argsNoConnector ["-name", "-iname", "-path", "-regex"]
      { kind := ParsedKind.search,
        raw := joinTokens tokens,
        query := query,
        path := pathArg,
        name := (truthy pathArg).map shortDisplayPath }
    else if head = "grep" then
      let argsNoConnector := trimAtConnector tail
      let nonFlags := argsNoConnector.filter (fun a => !strStartsWith a "-")
      { kind := ParsedKind.search,
        raw := joinTokens tokens,
        query := nonFlags.head?,
        path := nonFlags.get? 1,
        name := (truthy (nonFlags.get? 1)).map shortDisplayPath }
    else if head = "cat" then
      let rest := if tail.head? = some "--" then tail.drop 1 else tail
      match rest with
      | [pathArg] =>
        { kind := ParsedKind.read,
          raw := joinTokens tokens,
          name := some (shortDisplayPath pathArg),
          path := some pathArg,
          lineStart := some 0 }
      | _ => { kind := ParsedKind.unknown, raw := joinTokens tokens }
    else if head = "head" then
      match parseHeadMeta tail with
      | some (p, ls0, le) =>
        if p ≠ "" then
          { kind := ParsedKind.read,
            raw := joinTokens tokens,
            name := some (shortDisplayPath p),
            path := some p,
            lineStart := ls0,
            lineEnd := le }
        else { kind := ParsedKind.unknown, raw := joinTokens tokens }
      | none => { kind := ParsedKind.unknown, raw := joinTokens tokens }
    else if head = "tail" then
      match truthy (extractHeadTailPath tail) with
      | some pathArg =>
        { kind := ParsedKind.read,
          raw := joinTokens tokens,
          name := some (shortDisplayPath pathArg),
          path := some pathArg }
      | none => { kind := ParsedKind.unknown, raw := joinTokens tokens }
    else if head = "nl" then
      let candidates := skipFlagValues tail ["-s", "-w", "-v", "-i", "-b"]
      match truthy (candidates.find? (fun a => !strStartsWith a "-")) with
      | some pathArg =>
        { kind := ParsedKind.read,
          raw := joinTokens tokens,
          name := some (shortDisplayPath pathArg),
          path := some pathArg }
      | none => { kind := ParsedKind.unknown, raw := joinTokens tokens }
    else if head = "sed" then
      if tail.head? = some "-n" && isValidSedRange (tail.get? 1) &&
         (match tail.get? 2 with
          | some p => p ≠ ""
          | none => false) then
        match tail.get? 2 with
        | some pathArg =>
          let range := parseSedRange (tail.get? 1)
          { kind := ParsedKind.read,
            raw := joinTokens tokens,
            name := some (shortDisplayPath pathArg),
            path := some pathArg,
            lineStart := range.bind (fun r => r.1),
            lineEnd := range.bind (fun r => r.2) }
        | none => { kind := ParsedKind.unknown, raw := joinTokens tokens }
      else { kind := ParsedKind.unknown, raw := joinTokens tokens }
    else { kind := ParsedKind.unknown, raw := joinTokens tokens }

/-- Embedding of `isSmallFormatting`: noise stages dropped from multi-stage pipelines. -/
def isSmallFormatting (tokens : List String) (dropInPipeline : Bool) : Bool :=
  if !dropInPipeline || tokens = [] then false
  else
    match tokens.head? with
    | none => false
    | some head =>
      if head = "wc" || head = "tr" || head = "cut" || head = "sort" ||
         head = "uniq" || head = "xargs" || head = "tee" || head = "column" ||
         head = "awk" || head = "yes" || head = "printf" then true
      else if head = "head" || head = "tail" then decide (tokens.length < 3)
      else if head = "sed" then
        decide (tokens.length < 4) ||
          !(tokens.get? 1 = some "-n" && isValidSedRange (tokens.get? 2))
      else false

/-- Embedding of `isSameCommand`: equality on the `(kind, raw, path, query)` quadruple. -/
def isSameCommand (a b : ParsedCommand) : Bool :=
  a.kind = b.kind && a.raw = b.raw && a.path = b.path && a.query = b.query

/-- The body of `parseCommands`' per-segment loop: consume `cd` into the
local `cwd` accumulator, classify any other non-empty segment, and resolve a
relative `read` path against the accumulated `cwd` (recomputing the display
name). -/
def stepSegment (acc : Option String × List ParsedCommand) (segment : List String) :
    Option String × List ParsedCommand :=
  match segment with
  | [] => acc
  | s0 :: srest =>
    if s0 = "cd" && (truthy srest.head?).isSome then
      (some (match acc.1 with
             | some c => joinPaths c ((truthy srest.head?).getD "")
             | none => (truthy srest.head?).getD ""), acc.2)
    else
      let pc := summarizeMainTokens segment
      let pc :=
        if pc.kind = ParsedKind.read then
          match acc.1, pc.path with
          | some c, some p =>
            let np := joinPaths c p
            { pc with path := some np, name := some (shortDisplayPath np) }
          | _, _ => pc
        else pc
      (acc.1, acc.2 ++ [pc])

/-- The pre-dedup part of `parseCommands`: split on connectors, filter small
formatting stages, fold the per-segment step. -/
def parseCommandsCore (tokens : List String) : List ParsedCommand :=
  let segments := splitOnConnectors tokens
  let filteredSegments :=
    segments.filter (fun seg => !isSmallFormatting seg (decide (segments.length > 1)))
  (filteredSegments.foldl stepSegment (none, [])).2

/-- The dedup loop of `parseCommands`, carrying the last pushed element: a
stage identical (per `isSameCommand`) to the most recent survivor is
dropped. -/
def dedupGo (last : ParsedCommand) : List ParsedCommand → List ParsedCommand
  | [] => []
  | x :: t => if isSameCommand last x then dedupGo last t else x :: dedupGo x t

def dedupCmds : List ParsedCommand → List ParsedCommand
  | [] => []
  | a :: t => a :: dedupGo a t

/-- Embedding of `parseCommands` from commandSummary.ts. -/
def parseCommands (tokens : List String) : List ParsedCommand :=
  dedupCmds (parseCommandsCore tokens)

/-- Embedding of `normalizeToTokens`: tokenize, unwrap one level of `bash|zsh|sh -lc|-c
"<script>"`, and drop a leading `yes|y|no|n |` confirmation pipe. -/
def normalizeToTokens (cmd : String) : List String :=
  let tokens := shellSplit cmd
  let tokens :=
    match tokens with
    | t0 :: t1 :: _ :: _ =>
      if isShell t0 && (t1 = "-lc" || t1 = "-c") then
        shellSplit (unwrapQuotes (String.intercalate " " (tokens.drop 2)))
      else tokens
    | _ => tokens
  match tokens with
  | t0 :: t1 :: rest =>
    if (t0 = "yes" || t0 = "y" || t0 = "no" || t0 = "n") && t1 = "|" then rest
    else tokens
  | _ => tokens

/-! ### Presentation helpers -/

/-- Embedding of `formatLineRange`: render `start+1-end+1` when both bounds are present
and ordered.  (The source also guards `lineStart < 0`, which cannot occur
for the `Nat` bounds the classifier produces.) -/
def formatLineRange (lineStart lineEnd : Option Nat) : Option String :=
  match lineStart with
  | none => none
  | some s =>
    match lineEnd with
    | none => none
    | some e =>
      if e < s then none
      else some (toString (s + 1) ++ "-" ++ toString (e + 1))

/-- Embedding of `formatReadLabel`.  (`read.raw ?? 'file'` in the source: `raw` is a
non-optional string, so the `'file'` fallback is unreachable.) -/
def formatReadLabel (read : ParsedCommand) : String :=
  let base := read.name.getD (read.path.getD read.raw)
  match formatLineRange read.lineStart read.lineEnd with
  | some range => base ++ " " ++ range
  | none => base

/-- Embedding of `Array.from(new Set(...))`: deduplicate keeping first occurrences in
insertion order. -/
def jsSetDedup : List String → List String → List String
  | _, [] => []
  | seen, x :: t =>
    if seen.contains x then jsSetDedup seen t else x :: jsSetDedup (x :: seen) t

/-- Embedding of `buildSummary` from commandSummary.ts. -/
def buildSummary (parsed : List ParsedCommand) : Option String :=
  if parsed = [] then none
  else
    let reads := parsed.filter (fun p => p.kind = ParsedKind.read)
    let lists := parsed.filter (fun p => p.kind = ParsedKind.list)
    let searches := parsed.filter (fun p => p.kind = ParsedKind.search)
    let unknowns := parsed.filter (fun p => p.kind = ParsedKind.unknown)
    let readParts :=
      if reads ≠ [] then
        ["Read " ++ String.intercalate ", " (jsSetDedup [] (reads.map formatReadLabel))]
      else []
    let listParts := lists.map (fun l => "Listed " ++ (l.path.getD "files"))
    let searchParts := searches.map (fun s =>
      match truthy s.query, truthy s.path with
      | some q, some p => "Searched \"" ++ q ++ "\" in " ++ p
      | some q, none => "Searched \"" ++ q ++ "\""
      | none, some p => "Searched " ++ p
      | none, none => "Searched files")
    let unknownParts := unknowns.map (fun u => "Ran " ++ u.raw)
    some (String.intercalate " · " (readParts ++ listParts ++ searchParts ++ unknownParts))

/-- Embedding of `summarizeCommand` from commandSummary.ts: the classifier's public entry
point. -/
def summarizeCommand (command : String) : CommandSummary :=
  let trimmed := jsTrim command
  if trimmed = "" then
    { title := "Ran", summary := "Unknown command", displayCommand := command, parsed := [] }
  else
    let tokens := normalizeToTokens trimmed
    let parsed := parseCommands tokens
    let allExploratory :=
      decide (parsed ≠ []) && parsed.all (fun p => p.kind ≠ ParsedKind.unknown)
    let title := if allExploratory then "Explored" else "Ran"
    let summary := (buildSummary parsed).getD trimmed
    { title := title, summary := summary, displayCommand := trimmed, parsed := parsed }

/-! ### Unified-diff line derivation (agentView.ts) -/

/-- Literal `" @@"` tail required by the hunk-header regex. -/
def hasSpaceAtAt (l : List Char) : Bool :=
  match l with
  | ' ' :: '@' :: '@' :: _ => true
  | _ => false

/-- Match the regex `@@[^+]*\+(\d+)(?:,(\d+))? @@` at the head of a character
sequence and return the first capture.  `[^+]*` deterministically runs to the
first `+`; the optional `,(\d+)` group backtracks to absent when not followed
by `" @@"`. -/
def matchHunkAt (l : List Char) : Option Nat :=
  match l with
  | '@' :: '@' :: rest =>
    (match rest.dropWhile (fun c => c ≠ '+') with
     | '+' :: r2 =>
       let ds := r2.takeWhile Char.isDigit
       if ds = [] then none
       else
         let r3 := r2.dropWhile Char.isDigit
         let commaOk :=
           match r3 with
           | ',' :: r4 =>
             decide (r4.takeWhile Char.isDigit ≠ []) &&
               hasSpaceAtAt (r4.dropWhile Char.isDigit)
           | _ => false
         if commaOk || hasSpaceAtAt r3 then some (natOfDigits ds) else none
     | _ => none)
  | _ => none

/-- Unanchored scan: first position where the hunk-header pattern matches. -/
def findHunkPattern : List Char → Option Nat
  | [] => none
  | c :: rest =>
    match matchHunkAt (c :: rest) with
    | some n => some n
    | none => findHunkPattern rest

/-- Embedding of `parseFirstTargetLine` from agentView.ts: the target-start capture of the
first hunk-header-shaped pattern anywhere in the diff text.  (The source's
`Number.isFinite` guard only fails for captures beyond 2^1024, out of scope
for `Nat` line numbers.) -/
def parseFirstTargetLine (diff : String) : Option Nat :=
  findHunkPattern diff.toList

/-- The anchored per-line variant `^@@[^+]*\+(\d+)(?:,(\d+))? @@` used by
`parseFirstAddedLine`. -/
def headerCapture (line : String) : Option Nat :=
  matchHunkAt line.toList

/-- Embedding of `diff.split(/\r?\n/)`: split at newlines, consuming one `\r` directly
before each `\n`. -/
def jsSplitCRLF (s : String) : List String :=
  let stripCR (p : String) : String := if strEndsWith p "\r" then p.dropRight 1 else p
  let rec mapButLast : List String → List String
    | [] => []
    | [x] => [x]
    | x :: xs => stripCR x :: mapButLast xs
  mapButLast (splitOnChar '\n' s)

/-- The scanning loop of `parseFirstAddedLine`: `cur` is the new-file line
number the next hunk line corresponds to (`none` before any hunk header). -/
def firstAddedGo : Option Nat → List String → Option Nat
  | _, [] => none
  | cur, line :: rest =>
    match headerCapture line with
    | some c => firstAddedGo (some c) rest
    | none =>
      match cur with
      | none => firstAddedGo none rest
      | some c =>
        if strStartsWith line "+++" || strStartsWith line "---" then firstAddedGo (some c) rest
        else if strStartsWith line "+" then some c
        else if strStartsWith line " " then firstAddedGo (some (c + 1)) rest
        else firstAddedGo (some c) rest

/-- Embedding of `parseFirstAddedLine` from agentView.ts. -/
def parseFirstAddedLine (diff : String) : Option Nat :=
  firstAddedGo none (jsSplitCRLF diff)

/-- The line derivation applied to a resolved diff in the `file_change`
handler: `parseFirstAddedLine(d) ?? parseFirstTargetLine(d)`. -/
def derivedLine (diff : String) : Option Nat :=
  match parseFirstAddedLine diff with
  | some n => some n
  | none => parseFirstTargetLine diff

/-! ### Agent view reducer (agentView.ts) -/

/-- Embedding of `AuthStatus` from shared/messages.ts. -/
inductive AuthStatus
  | checking
  | loggedIn
  | loggedOut
  | loggingIn
  | error
deriving DecidableEq, Repr

/-- Embedding of `AgentMessageRole` from shared/messages.ts. -/
inductive Role
  | assistant
  | command
  | system
  | user
deriving DecidableEq, Repr

/-- One entry of a command message's `targets` list. -/
structure Target where
  label : String
  path : String
  isDir : Bool
deriving DecidableEq, Repr

/-- One element of a `file_change` item's `changes` array. -/
structure FileChange where
  path : String
  kind : Option String := none
  diff : Option String := none
deriving DecidableEq, Repr

/-- A change after enrichment (`{ ...change, absPath, line, kind, diff }`). -/
structure EnrichedChange where
  path : String
  kind : Option String
  diff : Option String
  absPath : String
  line : Option Nat
deriving DecidableEq, Repr

/-- A parsed command carrying the resolved `absPath` attached by the
command-execution handler. -/
structure ParsedCommandAbs extends ParsedCommand where
  absPath : Option String
deriving DecidableEq, Repr

/-- The `item` payloads the reducer inspects; `otherItem` stands for any
unrecognized `item.type`. -/
inductive CodexItem
  | agentMessage (text : Option String)
  | reasoning (text : Option String)
  | commandExecution (command : Option String) (aggregatedOutput : Option String)
  | fileChange (changes : Option (List FileChange))
  | otherItem
deriving DecidableEq, Repr

/-- A line-delimited event from the external process; `type` is the raw
string discriminant (`"item.completed"`, `"turn.completed"`, ...). -/
structure CodexEvent where
  type : String
  item : Option CodexItem := none
deriving DecidableEq, Repr

/-- Embedding of `HostToWebviewMessage` payload of an `appendMessage`. -/
structure AgentMessage where
  role : Option Role := none
  text : Option String := none
  command : Option String := none
  friendlyTitle : Option String := none
  friendlySummary : Option String := none
  targets : Option (List Target) := none
  parsed : Option (List ParsedCommandAbs) := none
  fileChanges : Option (List EnrichedChange) := none
deriving DecidableEq, Repr

/-- The messages the provider posts to the webview. -/
inductive HostMsg
  | appendMessage (m : AgentMessage)
  | clearMessages
  | setBusy (busy : Bool)
  | reasoningUpdate (text : Option String)
  | authState (status : AuthStatus) (detail : Option String)
deriving DecidableEq, Repr

/-- The provider's mutable session fields relevant to prompt handling. -/
structure AgentState where
  busy : Bool
  authStatus : AuthStatus
  lastCwd : Option String := none
  lastCommandOutput : Option String := none
deriving DecidableEq, Repr

/-- Injected diff lookup for file-change enrichment: stands for
`gitDiffForPath(lastCwd, absPath) ?? fallbackDiffFromLastCommand(path,
lastCwd, lastCommandOutput)` — the first shells out to `git` (I/O) and the
second scans the previously captured output; the claims only concern the
line derived from whatever diff this chain resolves.  Arguments: the
reported path and the resolved absolute path. -/
def DiffProvider : Type := String → String → Option String

/-- Absolute path of a reported change
(`lastCwd && !isAbsolute(p) ? join(lastCwd, p) : p`). -/
def absPathOf (lastCwd : Option String) (p : String) : String :=
  match lastCwd with
  | some c => if !pathIsAbsolute p then pathJoin2 c p else p
  | none => p

/-- The resolved diff of a change:
`change.diff ?? gitDiffForPath(...) ?? fallbackDiffFromLastCommand(...)`. -/
def inferredDiffOf (dp : DiffProvider) (lastCwd : Option String) (change : FileChange) :
    Option String :=
  match change.diff with
  | some d => some d
  | none => dp change.path (absPathOf lastCwd change.path)

/-- Enrichment of one reported change in the `file_change` handler. -/
def enrichChange (dp : DiffProvider) (lastCwd : Option String) (change : FileChange) :
    EnrichedChange :=
  let inferredDiff := inferredDiffOf dp lastCwd change
  let line :=
    match inferredDiff with
    | some d => derivedLine d
    | none => none
  let kindLC := jsToLower (change.kind.getD "")
  { path := change.path,
    kind := if kindLC = "" then change.kind else some kindLC,
    diff := inferredDiff,
    absPath := absPathOf lastCwd change.path,
    line := line }

/-- Verb used in file-change summaries. -/
def verbOf (kind : Option String) : String :=
  if kind = some "delete" then "Deleted"
  else if kind = some "add" then "Added"
  else "Updated"

/-- Embedding of `forwardCodexEvent` from agentView.ts, as a pure transition on the
session state returning the posted webview messages.  (The call to
`clearReadHighlights` manipulates editor decorations, and the `file_change`
branch additionally calls `showTextDocument`; neither posts a webview
message, so neither appears in the returned list.) -/
def forwardCodexEvent (dp : DiffProvider) (st : AgentState) (evt : CodexEvent) :
    AgentState × List HostMsg :=
  match evt.item with
  | some (CodexItem.agentMessage txt) =>
    if evt.type = "item.completed" then
      (st, [HostMsg.appendMessage { role := some Role.assistant, text := some (txt.getD "") },
            HostMsg.reasoningUpdate none])
    else (st, [])
  | some (CodexItem.fileChange chs) =>
    if evt.type = "item.completed" || evt.type = "item.updated" then
      let changes := chs.getD []
      let enriched := changes.map (enrichChange dp st.lastCwd)
      let summary := String.intercalate ", "
        (enriched.map (fun c => verbOf c.kind ++ " " ++ pathBasename c.path))
      let fallbackText :=
        if enriched ≠ [] then
          String.intercalate "\n" (enriched.map (fun c => verbOf c.kind ++ " " ++ c.path))
        else "Applied file changes."
      let text :=
        match (enriched.find? (fun c => (truthy c.diff).isSome)).bind (fun c => c.diff) with
        | some d => d
        | none => fallbackText
      (st, [HostMsg.appendMessage
        { role := some Role.command,
          friendlyTitle := some "Edited files",
          friendlySummary := some (if summary = "" then "Applied file changes" else summary),
          fileChanges := some enriched,
          text := some text }])
    else (st, [])
  | some (CodexItem.reasoning txt) =>
    if evt.type = "item.completed" then
      (st, [HostMsg.reasoningUpdate (some (txt.getD ""))])
    else (st, [])
  | some (CodexItem.commandExecution cmd agg) =>
    if evt.type = "item.completed" then
      let text := agg.getD ""
      let st2 := { st with lastCommandOutput := if text = "" then none else some text }
      let command := cmd.getD ""
      let summary := summarizeCommand command
      let parsedWithAbs := summary.parsed.map (fun p =>
        let abs :=
          match truthy p.path with
          | some rawPath =>
            some (if pathIsAbsolute rawPath then rawPath
                  else match st.lastCwd with
                       | some c => pathJoin2 c rawPath
                       | none => rawPath)
          | none => none
        ({ toParsedCommand := p, absPath := abs } : ParsedCommandAbs))
      let targets := (parsedWithAbs.filter (fun p => p.absPath.isSome)).map (fun p =>
        ({ label := p.name.getD (p.path.getD p.raw),
           path := p.absPath.getD "",
           isDir := decide (p.kind = ParsedKind.list) } : Target))
      (st2, [HostMsg.appendMessage
        { role := some Role.command,
          text := some text,
          command := some summary.displayCommand,
          friendlyTitle := some (if summary.title = "Explored" then "" else summary.title),
          friendlySummary := some summary.summary,
          targets := some targets,
          parsed := some parsedWithAbs }])
    else (st, [])
  | _ => (st, [])

/-- How a run can fail: `CodexBinaryError` (bad bundled binary), a Node
errno error with code `ENOENT`, any other error object carrying a message
(e.g. `Codex exited with code N`), or a thrown non-object. -/
inductive RunError
  | binaryError (message : String)
  | enoent (message : String)
  | withMessage (message : String)
  | nonObject
deriving DecidableEq, Repr

/-- Embedding of `formatFriendlyError` from agentView.ts. -/
def formatFriendlyError (err : RunError) : String :=
  match err with
  | RunError.binaryError m => m
  | RunError.enoent _ => "Codex CLI binary not found or not executable."
  | RunError.withMessage m => m
  | RunError.nonObject => "Codex CLI failed to start."

/-- Embedding of `handleRunError`: `CodexBinaryError` and `ENOENT` failures are handled
with two assistant messages; anything else is left to the caller. -/
def handleRunError (err : RunError) : Option (List HostMsg) :=
  match err with
  | RunError.binaryError _ =>
    some [HostMsg.appendMessage { role := some Role.assistant, text := some (formatFriendlyError err) },
          HostMsg.appendMessage { role := some Role.assistant, text := some "Codex CLI unavailable." }]
  | RunError.enoent _ =>
    some [HostMsg.appendMessage { role := some Role.assistant, text := some (formatFriendlyError err) },
          HostMsg.appendMessage { role := some Role.assistant, text := some "Codex CLI unavailable." }]
  | _ => none

/-- One run of `codexClient.runExec`: the events delivered on stdout before
the promise settles, and `none` (exit code 0) or the rejection error —
covering stream completion, non-zero exit, and failure to start. -/
structure RunTrace where
  events : List CodexEvent
  outcome : Option RunError
deriving DecidableEq, Repr

/-- Result of `handlePrompt`: the provider state afterwards, the webview
messages posted (in order), and whether `runExec` was invoked. -/
structure PromptResult where
  state : AgentState
  emitted : List HostMsg
  launched : Bool
deriving DecidableEq, Repr

/-- Embedding of `AgentViewProvider.handlePrompt` from agentView.ts: guard clauses for
empty prompt / not logged in / already busy / no workspace folder, then the
busy window around `runExec` with its `catch` and `finally` blocks. -/
def handlePrompt (dp : DiffProvider) (st : AgentState) (workspaceFolders : List String)
    (prompt : String) (run : RunTrace) : PromptResult :=
  let trimmed := jsTrim prompt
  if trimmed = "" then
    { state := st, emitted := [], launched := false }
  else if st.authStatus ≠ AuthStatus.loggedIn then
    { state := st,
      emitted := [HostMsg.appendMessage
        { role := some Role.system, text := some "Please sign in to Codex before running the agent." }],
      launched := false }
  else if st.busy then
    { state := st,
      emitted := [HostMsg.appendMessage
        { role := some Role.system, text := some "Agent is already running. Please wait…" }],
      launched := false }
  else
    match workspaceFolders with
    | [] =>
      { state := st,
        emitted := [HostMsg.appendMessage
          { role := some Role.system, text := some "Open a folder before running the agent." }],
        launched := false }
    | cwd :: _ =>
      let st1 := { st with lastCwd := some cwd, busy := true }
      let pre := [HostMsg.setBusy true,
                  HostMsg.appendMessage { role := some Role.user, text := some trimmed }]
      let folded := run.events.foldl
        (fun (acc : AgentState × List HostMsg) evt =>
          let stepped := forwardCodexEvent dp acc.1 evt
          (stepped.1, acc.2 ++ stepped.2))
        (st1, [])
      let errMsgs :=
        match run.outcome with
        | none => []
        | some err =>
          match handleRunError err with
          | some ms => ms
          | none =>
            [HostMsg.appendMessage
              { role := some Role.assistant, text := some (formatFriendlyError err) }]
      { state := { folded.1 with busy := false },
        emitted := pre ++ folded.2 ++ errMsgs ++ [HostMsg.setBusy false],
        launched := true }

/-! ### Specification-side definitions

These restate properties claimed by the specification in a form independent
of the source's loop structure, to be compared with the embedded code. -/

/-- Dedup as the specification words it: an element is removed exactly when
its immediate predecessor in the original list has the same
`(kind, raw, path, query)` quadruple; the comparison point advances to each
original element whether or not it was kept.  (The code instead compares
with the last survivor.) -/
def specDedupGo (prev : ParsedCommand) : List ParsedCommand → List ParsedCommand
  | [] => []
  | x :: t => if isSameCommand prev x then specDedupGo x t else x :: specDedupGo x t

def specConsecutiveDedup : List ParsedCommand → List ParsedCommand
  | [] => []
  | a :: t => a :: specDedupGo a t

/-- A diff line that matches the anchored hunk-header pattern. -/
def isHeaderLineB (l : String) : Bool :=
  (headerCapture l).isSome

/-- An added line: starts with `+` but is not a `+++` file header. -/
def isAddedLineB (l : String) : Bool :=
  strStartsWith l "+" && !strStartsWith l "+++"

/-- A context line: starts with a space (advances the new-file counter). -/
def isCtxLineB (l : String) : Bool :=
  strStartsWith l " "

/-- Declarative first-added-line derivation over the hunks of a diff, in
scan order: inside the first hunk (the lines between one header and the
next) that contains an added line, the result is the hunk's target start
plus the number of context lines before that added line — the added line's
line number in the new file; hunks without additions are passed over. -/
def specFirstAddedScan : List String → Option Nat
  | [] => none
  | l :: ls =>
    match headerCapture l with
    | none => specFirstAddedScan ls
    | some c =>
      let body := ls.takeWhile (fun x => !isHeaderLineB x)
      match body.findIdx? isAddedLineB with
      | some k => some (c + ((body.take k).countP isCtxLineB))
      | none => specFirstAddedScan ls

/-- The claim C5 as literally stated: the new-file line number of the first
added line within the *first* hunk, falling back to the first hunk's target
start when that hunk contains no addition. -/
def claimFirstHunkLine (d : String) : Option Nat :=
  let lines := jsSplitCRLF d
  match lines.dropWhile (fun x => !isHeaderLineB x) with
  | [] => none
  | h :: t =>
    match headerCapture h with
    | none => none
    | some c =>
      let body := t.takeWhile (fun x => !isHeaderLineB x)
      match body.findIdx? isAddedLineB with
      | some k => some (c + ((body.take k).countP isCtxLineB))
      | none => some c

/-- Shorthand for the `appendMessage` posts that carry only a role and a
text (used to state theorems; definitionally equal to the records built in
`handlePrompt`). -/
def roleTextMsg (r : Role) (t : String) : HostMsg :=
  HostMsg.appendMessage { role := some r, text := some t }

/-! ## Theorems -/

/-! ### C1: the busy flag is always cleared -/

/-- C1.  Whenever `handlePrompt` accepts a prompt (non-empty after trimming,
logged in, not busy, a workspace folder available — the cases in which the
code sets `busy := true`), the resulting state has `busy = false` and a
`setBusy false` message is emitted, for *every* run trace: any event
sequence, with the stream completing, exiting non-zero, or failing to start.
No run can leave `busy` true, because the `finally` block runs
unconditionally and no event handler touches `busy`. -/
theorem handlePrompt_clears_busy (dp : DiffProvider) (st : AgentState)
    (folders : List String) (prompt : String) (run : RunTrace)
    (h1 : jsTrim prompt ≠ "") (h2 : st.authStatus = AuthStatus.loggedIn)
    (h3 : st.busy = false) (h4 : folders ≠ []) :
    (handlePrompt dp st folders prompt run).state.busy = false ∧
    HostMsg.setBusy false ∈ (handlePrompt dp st folders prompt run).emitted := by
  cases folders with
  | nil => exact absurd rfl h4
  | cons cwd rest =>
    simp only [handlePrompt, if_neg h1, h2, h3]
    simp

/-- Witness for C1 at a concrete accepted prompt with a run that delivers
one malformed-ish event and then fails with a non-zero exit. -/
theorem handlePrompt_clears_busy_witness :
    jsTrim "hi" ≠ "" ∧
    ((handlePrompt (fun _ _ => none) ⟨false, AuthStatus.loggedIn, none, none⟩
        ["/ws"] "hi" ⟨[⟨"turn.failed", none⟩], some (RunError.withMessage "Codex exited with code 1")⟩).state.busy = false ∧
      HostMsg.setBusy false ∈ (handlePrompt (fun _ _ => none) ⟨false, AuthStatus.loggedIn, none, none⟩
        ["/ws"] "hi" ⟨[⟨"turn.failed", none⟩], some (RunError.withMessage "Codex exited with code 1")⟩).emitted) :=
  ⟨by decide,
   handlePrompt_clears_busy (fun _ _ => none) ⟨false, AuthStatus.loggedIn, none, none⟩
     ["/ws"] "hi" ⟨[⟨"turn.failed", none⟩], some (RunError.withMessage "Codex exited with code 1")⟩
     (by decide) rfl rfl (by simp)⟩

/-! ### C2: user-input error handling -/

/-- C2 counterexample.  The claim states that *every* user-input error —
including an empty prompt — is rejected with a short system-role message
appended to the log.  But an empty prompt is rejected silently: the code
returns before posting anything, so the emitted message list is empty. -/
theorem handlePrompt_empty_prompt_silent_cex :
    handlePrompt (fun _ _ => none) ⟨false, AuthStatus.loggedIn, none, none⟩
      ["/workspace"] "" ⟨[], none⟩ =
      ⟨⟨false, AuthStatus.loggedIn, none, none⟩, [], false⟩ := by
  decide

/-- C2 (amended).  An empty (or whitespace-only) prompt is rejected silently
with no message; a prompt while not logged in, while already busy, or with
no workspace folder open is rejected with exactly one short system-role
message.  In all four cases the state is unchanged (in particular the
session never enters — or re-enters — the busy state, and no `setBusy` is
emitted) and no agent process is launched. -/
theorem handlePrompt_input_errors :
    (∀ (dp : DiffProvider) (st : AgentState) (folders : List String) (prompt : String)
       (run : RunTrace), jsTrim prompt = "" →
       handlePrompt dp st folders prompt run = ⟨st, [], false⟩)
    ∧ (∀ (dp : DiffProvider) (st : AgentState) (folders : List String) (prompt : String)
       (run : RunTrace), jsTrim prompt ≠ "" → st.authStatus ≠ AuthStatus.loggedIn →
       handlePrompt dp st folders prompt run =
         ⟨st, [roleTextMsg Role.system "Please sign in to Codex before running the agent."], false⟩)
    ∧ (∀ (dp : DiffProvider) (st : AgentState) (folders : List String) (prompt : String)
       (run : RunTrace), jsTrim prompt ≠ "" → st.authStatus = AuthStatus.loggedIn →
       st.busy = true →
       handlePrompt dp st folders prompt run =
         ⟨st, [roleTextMsg Role.system "Agent is already running. Please wait…"], false⟩)
    ∧ (∀ (dp : DiffProvider) (st : AgentState) (prompt : String) (run : RunTrace),
       jsTrim prompt ≠ "" → st.authStatus = AuthStatus.loggedIn → st.busy = false →
       handlePrompt dp st [] prompt run =
         ⟨st, [roleTextMsg Role.system "Open a folder before running the agent."], false⟩) := by
  refine ⟨?_, ?_, ?_, ?_⟩
  · intro dp st folders prompt run h
    simp [handlePrompt, h]
  · intro dp st folders prompt run h1 h2
    simp [handlePrompt, roleTextMsg, h1, h2]
  · intro dp st folders prompt run h1 h2 h3
    simp [handlePrompt, roleTextMsg, h1, h2, h3]
  · intro dp st prompt run h1 h2 h3
    simp [handlePrompt, roleTextMsg, h1, h2, h3]

/-- Witness for C2 exercising each of the four rejection branches at
concrete inputs. -/
theorem handlePrompt_input_errors_witness :
    (jsTrim "   " = "" ∧
      handlePrompt (fun _ _ => none) ⟨false, AuthStatus.loggedIn, none, none⟩
        ["/ws"] "   " ⟨[], none⟩ = ⟨⟨false, AuthStatus.loggedIn, none, none⟩, [], false⟩)
    ∧ (handlePrompt (fun _ _ => none) ⟨false, AuthStatus.loggedOut, none, none⟩
        ["/ws"] "hi" ⟨[], none⟩ =
        ⟨⟨false, AuthStatus.loggedOut, none, none⟩,
         [roleTextMsg Role.system "Please sign in to Codex before running the agent."], false⟩)
    ∧ (handlePrompt (fun _ _ => none) ⟨true, AuthStatus.loggedIn, none, none⟩
        ["/ws"] "hi" ⟨[], none⟩ =
        ⟨⟨true, AuthStatus.loggedIn, none, none⟩,
         [roleTextMsg Role.system "Agent is already running. Please wait…"], false⟩)
    ∧ (handlePrompt (fun _ _ => none) ⟨false, AuthStatus.loggedIn, none, none⟩
        [] "hi" ⟨[], none⟩ =
        ⟨⟨false, AuthStatus.loggedIn, none, none⟩,
         [roleTextMsg Role.system "Open a folder before running the agent."], false⟩) :=
  ⟨⟨by decide, handlePrompt_input_errors.1 _ _ _ _ _ (by decide)⟩,
   handlePrompt_input_errors.2.1 _ _ _ _ _ (by decide) (by decide),
   handlePrompt_input_errors.2.2.1 _ _ _ _ _ (by decide) rfl rfl,
   handlePrompt_input_errors.2.2.2 _ _ _ _ (by decide) rfl rfl⟩

/-! ### C10: fall-through summary when nothing is parsed -/

/-- C10.  For a non-empty command string whose stages are all consumed
without producing any parsed entry (every stage filtered as small
formatting, or consumed as a `cd`), `summarizeCommand` returns an empty
parse list, title `"Ran"`, and the trimmed input itself as the summary —
not `"Unknown command"`, which is reserved for empty input. -/
theorem summarizeCommand_fallthrough_summary (command : String)
    (h1 : jsTrim command ≠ "")
    (h2 : parseCommands (normalizeToTokens (jsTrim command)) = []) :
    summarizeCommand command =
      { title := "Ran", summary := jsTrim command,
        displayCommand := jsTrim command, parsed := [] } := by
  simp [summarizeCommand, h1, h2, buildSummary]

/-- Witness for C10 on the lone-`cd` command and the all-noise pipeline. -/
theorem summarizeCommand_fallthrough_summary_witness :
    (jsTrim "cd src" ≠ "" ∧ parseCommands (normalizeToTokens (jsTrim "cd src")) = [] ∧
      summarizeCommand "cd src" =
        { title := "Ran", summary := "cd src", displayCommand := "cd src", parsed := [] })
    ∧ (summarizeCommand "wc -l | sort" =
        { title := "Ran", summary := "wc -l | sort",
          displayCommand := "wc -l | sort", parsed := [] }) :=
  ⟨⟨by decide, by decide, summarizeCommand_fallthrough_summary "cd src" (by decide) (by decide)⟩,
   summarizeCommand_fallthrough_summary "wc -l | sort" (by decide) (by decide)⟩

/-! ### C3: deduplication removes only consecutive identical stages -/

theorem isSameCommand_iff (a b : ParsedCommand) :
    isSameCommand a b = true ↔
      a.kind = b.kind ∧ a.raw = b.raw ∧ a.path = b.path ∧ a.query = b.query := by
  simp [isSameCommand, and_assoc]

/-- Stages identical on the quadruple are interchangeable as the comparison
point of the dedup loop. -/
theorem dedupGo_congr (a b : ParsedCommand) (h : isSameCommand a b = true)
    (t : List ParsedCommand) : dedupGo a t = dedupGo b t := by
  induction t with
  | nil => rfl
  | cons x t ih =>
    have hs : isSameCommand a x = isSameCommand b x := by
      rcases (isSameCommand_iff a b).1 h with ⟨h1, h2, h3, h4⟩
      simp [isSameCommand, h1, h2, h3, h4]
    by_cases hb : isSameCommand b x = true
    · simp [dedupGo, hs, hb, ih]
    · simp [dedupGo, hs, hb]

/-- The code's dedup (comparison with the last survivor) computes exactly
the specification's dedup (comparison with the immediate predecessor in the
original list). -/
theorem dedupGo_eq_spec (t : List ParsedCommand) : ∀ a, dedupGo a t = specDedupGo a t := by
  induction t with
  | nil => intro a; rfl
  | cons x t ih =>
    intro a
    by_cases h : isSameCommand a x = true
    · simp [dedupGo, specDedupGo, h, dedupGo_congr a x h t, ih x]
    · simp [dedupGo, specDedupGo, h, ih x]

theorem dedupCmds_eq_spec (l : List ParsedCommand) :
    dedupCmds l = specConsecutiveDedup l := by
  cases l with
  | nil => rfl
  | cons a t => simp [dedupCmds, specConsecutiveDedup, dedupGo_eq_spec t a]

/-- The dedup loop's output never contains two consecutive stages with the
same quadruple. -/
theorem chain_dedupGo (t : List ParsedCommand) :
    ∀ a, List.Chain' (fun x y => isSameCommand x y = false) (a :: dedupGo a t) := by
  induction t with
  | nil => intro a; simp [dedupGo]
  | cons x t ih =>
    intro a
    by_cases h : isSameCommand a x = true
    · simpa [dedupGo, h] using ih a
    · simp only [dedupGo, if_neg h]
      exact List.Chain'.cons (by simpa using h) (ih x)

/-- C3.  For every command string, the parsed list of `summarizeCommand`
contains no two consecutive elements identical on `(kind, raw, path, query)`;
moreover the dedup is exactly the removal of stages whose quadruple equals
their immediate predecessor's (`specConsecutiveDedup`), so non-consecutive
duplicates are both retained. -/
theorem summarizeCommand_dedup_consecutive (command : String) :
    List.Chain' (fun a b => isSameCommand a b = false) (summarizeCommand command).parsed ∧
    (summarizeCommand command).parsed =
      specConsecutiveDedup (parseCommandsCore (normalizeToTokens (jsTrim command))) := by
  by_cases h : jsTrim command = ""
  · refine ⟨by simp [summarizeCommand, h], ?_⟩
    have hp : (summarizeCommand command).parsed = [] := by simp [summarizeCommand, h]
    rw [hp, h]
    decide
  · refine ⟨?_, ?_⟩
    · simp only [summarizeCommand, if_neg h]
      cases hc : parseCommandsCore (normalizeToTokens (jsTrim command)) with
      | nil => simp [parseCommands, hc, dedupCmds]
      | cons a t =>
        simpa [parseCommands, hc, dedupCmds] using chain_dedupGo t a
    · simp only [summarizeCommand, if_neg h]
      simp [parseCommands, dedupCmds_eq_spec]

/-! ### C4: title derivation -/

/-- C4.  For every command string, the title is `"Explored"` exactly when
the post-filter, post-dedup stage list is non-empty and contains no
`unknown` stage; in every other case it is `"Ran"`.  In particular a mix of
`ls` and an unrecognized binary yields `"Ran"`. -/
theorem summarizeCommand_title_iff (command : String) :
    ((summarizeCommand command).title = "Explored" ↔
      ((summarizeCommand command).parsed ≠ [] ∧
        ∀ p ∈ (summarizeCommand command).parsed, p.kind ≠ ParsedKind.unknown)) ∧
    ((summarizeCommand command).title = "Explored" ∨
      (summarizeCommand command).title = "Ran") ∧
    (summarizeCommand "ls && frobnicate").title = "Ran" := by
  refine ⟨?_, ?_, by decide⟩
  · by_cases h : jsTrim command = ""
    · simp [summarizeCommand, h]
    · simp only [summarizeCommand, if_neg h]
      by_cases hb : (decide (parseCommands (normalizeToTokens (jsTrim command)) ≠ []) &&
          (parseCommands (normalizeToTokens (jsTrim command))).all
            (fun p => decide (p.kind ≠ ParsedKind.unknown))) = true
      · rw [if_pos hb]
        simp only [Bool.and_eq_true, decide_eq_true_eq, List.all_eq_true] at hb
        exact ⟨fun _ => ⟨hb.1, fun p hp => by simpa using hb.2 p hp⟩, fun _ => rfl⟩
      · rw [if_neg hb]
        constructor
        · intro habs
          exact absurd habs (by decide)
        · intro habs
          refine absurd ?_ hb
          simp only [Bool.and_eq_true, decide_eq_true_eq, List.all_eq_true]
          exact ⟨habs.1, fun p hp => by simpa using habs.2 p hp⟩
  · by_cases h : jsTrim command = ""
    · simp [summarizeCommand, h]
    · simp only [summarizeCommand, if_neg h]
      by_cases hb : (decide (parseCommands (normalizeToTokens (jsTrim command)) ≠ []) &&
          (parseCommands (normalizeToTokens (jsTrim command))).all
            (fun p => decide (p.kind ≠ ParsedKind.unknown))) = true
      · rw [if_pos hb]
        exact Or.inl rfl
      · rw [if_neg hb]
        exact Or.inr rfl


/-! ### Helper lemmas on takeWhile / dropWhile -/

theorem takeWhile_append_stop {α : Type} (p : α → Bool) (l1 : List α) (x : α) (l2 : List α)
    (h1 : ∀ c ∈ l1, p c = true) (h2 : p x = false) :
    (l1 ++ x :: l2).takeWhile p = l1 := by
  induction l1 with
  | nil => simp [List.takeWhile_cons, h2]
  | cons a t ih =>
    have ha : p a = true := h1 a (List.mem_cons_self a t)
    simp only [List.cons_append, List.takeWhile_cons, ha, if_true]
    rw [ih (fun c hc => h1 c (List.mem_cons_of_mem a hc))]

theorem dropWhile_append_stop {α : Type} (p : α → Bool) (l1 : List α) (x : α) (l2 : List α)
    (h1 : ∀ c ∈ l1, p c = true) (h2 : p x = false) :
    (l1 ++ x :: l2).dropWhile p = x :: l2 := by
  induction l1 with
  | nil => simp [List.dropWhile_cons, h2]
  | cons a t ih =>
    have ha : p a = true := h1 a (List.mem_cons_self a t)
    simp only [List.cons_append, List.dropWhile_cons, ha, if_true]
    exact ih (fun c hc => h1 c (List.mem_cons_of_mem a hc))

theorem takeWhile_all {α : Type} (p : α → Bool) (l : List α)
    (h : ∀ c ∈ l, p c = true) : l.takeWhile p = l := by
  induction l with
  | nil => rfl
  | cons a t ih =>
    have ha : p a = true := h a (List.mem_cons_self a t)
    simp only [List.takeWhile_cons, ha, if_true]
    rw [ih (fun c hc => h c (List.mem_cons_of_mem a hc))]

theorem dropWhile_all {α : Type} (p : α → Bool) (l : List α)
    (h : ∀ c ∈ l, p c = true) : l.dropWhile p = [] := by
  induction l with
  | nil => rfl
  | cons a t ih =>
    have ha : p a = true := h a (List.mem_cons_self a t)
    simp only [List.dropWhile_cons, ha, if_true]
    exact ih (fun c hc => h c (List.mem_cons_of_mem a hc))

/-! ### C6: the cat single-argument rule -/

/-- C6 counterexample.  `cat -n README.md` has exactly one non-flag argument
after the command name, yet it is *not* classified as a read: the code
requires exactly one argument of any form (after at most a leading `--`),
so the claim's "exactly when exactly one non-flag argument remains" is
false. -/
theorem cat_nonflag_cex :
    (summarizeCommand "cat -n README.md").parsed =
      [{ kind := ParsedKind.unknown, raw := "cat -n README.md" }] ∧
    ["-n", "README.md"].filter (fun a => !strStartsWith a "-") = ["README.md"] := by
  decide

/-- C6 (amended).  A `cat` stage classifies as a read with `lineStart = 0`
(and no `lineEnd`) exactly when, after dropping at most one leading `--`,
exactly one argument (flag or not) remains; that argument becomes the path.
With any other number of remaining arguments the stage is `unknown`.  In
particular `cat README.md` yields one read entry with path `README.md`,
`lineStart 0` and `lineEnd` absent. -/
theorem cat_single_arg_read :
    (∀ (args : List String) (p : String),
      (if args.head? = some "--" then args.drop 1 else args) = [p] →
      summarizeMainTokens ("cat" :: args) =
        { kind := ParsedKind.read, raw := joinTokens ("cat" :: args),
          name := some (shortDisplayPath p), path := some p, lineStart := some 0 })
    ∧ (∀ args : List String,
      (if args.head? = some "--" then args.drop 1 else args).length ≠ 1 →
      summarizeMainTokens ("cat" :: args) =
        { kind := ParsedKind.unknown, raw := joinTokens ("cat" :: args) })
    ∧ summarizeCommand "cat README.md" =
      { title := "Explored", summary := "Read README.md",
        displayCommand := "cat README.md",
        parsed := [{ kind := ParsedKind.read, raw := "cat README.md",
                     name := some "README.md", path := some "README.md",
                     lineStart := some 0 }] } := by
  refine ⟨?_, ?_, by decide⟩
  · intro args p hr
    simp only [summarizeMainTokens, String.reduceEq, reduceIte]
    split
    · next pathArg heq =>
      rw [hr] at heq
      cases heq
      rfl
    · next hne =>
      exact absurd hr (hne p)
  · intro args hr
    simp only [summarizeMainTokens, String.reduceEq, reduceIte]
    split
    · next pathArg heq =>
      exact absurd (by rw [heq]; rfl) hr
    · next hne =>
      rfl

/-- Witness for C6 at a read (`cat README.md`), a `--`-guarded read, and a
two-argument non-read. -/
theorem cat_single_arg_read_witness :
    ((if (["README.md"] : List String).head? = some "--"
        then (["README.md"] : List String).drop 1 else ["README.md"]) = ["README.md"] ∧
      summarizeMainTokens ["cat", "README.md"] =
        { kind := ParsedKind.read, raw := "cat README.md",
          name := some "README.md", path := some "README.md", lineStart := some 0 })
    ∧ summarizeMainTokens ["cat", "a.ts", "b.ts"] =
        { kind := ParsedKind.unknown, raw := "cat a.ts b.ts" } :=
  ⟨⟨by decide, by
      have h := cat_single_arg_read.1 ["README.md"] "README.md" (by decide)
      simpa using h⟩,
   by
      have h := cat_single_arg_read.2.1 ["a.ts", "b.ts"] (by decide)
      simpa using h⟩

/-! ### C7: rg extraction does not skip flag values -/

/-- C7 counterexample.  For `rg -g *.md TODO src` the value `*.md` of the
value-bearing flag `-g` is *not* skipped: it is taken as the query (the
first token not starting with `-`), and `TODO` as the path — not
`query = "TODO"`, `path = "src"` as the claim's flag-skipping described. -/
theorem rg_flag_value_cex :
    (summarizeCommand "rg -g *.md TODO src").parsed =
      [{ kind := ParsedKind.search, raw := "rg -g *.md TODO src",
         name := some "TODO", path := some "TODO", query := some "*.md" }] := by
  decide

/-- C7 (amended).  An `rg` stage classifies as a search whose query is the
first token not beginning with `-` (populated only when `--files` is
absent) and whose path is the next such token; tokens are filtered purely
by their leading `-`, with no flag-value skipping, so the separate value of
a value-bearing flag is read as a positional.  In particular
`rg "TODO" src` yields one search entry with query `TODO` and path `src`. -/
theorem rg_search_extraction :
    (∀ args : List String,
      summarizeMainTokens ("rg" :: args) =
        (let a := trimAtConnector args
         let nonFlags := a.filter (fun t => !strStartsWith t "-")
         let pathArg := if a.contains "--files" then nonFlags.head? else nonFlags.get? 1
         { kind := ParsedKind.search,
           raw := joinTokens ("rg" :: args),
           query := if a.contains "--files" then none else nonFlags.head?,
           path := pathArg,
           name := (truthy pathArg).map shortDisplayPath }))
    ∧ summarizeCommand "rg \"TODO\" src" =
      { title := "Explored", summary := "Searched \"TODO\" in src",
        displayCommand := "rg \"TODO\" src",
        parsed := [{ kind := ParsedKind.search, raw := "rg TODO src",
                     name := some "src", path := some "src", query := some "TODO" }] } := by
  refine ⟨?_, by decide⟩
  intro args
  simp only [summarizeMainTokens]
  norm_num
  cases hf : (trimAtConnector args).contains "--files" with
  | true => simp [hf]
  | false => simp [hf]


/-! ### C8: sed range reads -/

/-- C8 counterexample.  For `sed -n 5,0p foo.ts` the claim's bounds
`[start-1, end-1]` would make `lineEnd` equal `0 - 1` (negative, or `0`
clamped) — but the code treats the parsed end `0` as falsy and defaults
`lineEnd` to `lineStart`, yielding `lineEnd = 4`. -/
theorem sed_zero_end_cex :
    (summarizeCommand "sed -n 5,0p foo.ts").parsed =
      [{ kind := ParsedKind.read, raw := "sed -n 5,0p foo.ts", name := some "foo.ts",
         path := some "foo.ts", lineStart := some 4, lineEnd := some 4 }] := by
  decide

/-- A non-empty all-digit list ends in a digit. -/
theorem getLast?_digit (d : List Char) (hd : d ≠ [])
    (hall : ∀ c ∈ d, c.isDigit = true) :
    ∃ c, d.getLast? = some c ∧ c.isDigit = true := by
  induction d with
  | nil => exact absurd rfl hd
  | cons a t ih =>
    cases t with
    | nil => exact ⟨a, rfl, hall a (List.mem_cons_self a [])⟩
    | cons b t2 =>
      obtain ⟨c, h1, h2⟩ := ih (by simp)
        (fun x hx => hall x (List.mem_cons_of_mem a hx))
      exact ⟨c, by rw [List.getLast?_cons_cons, h1], h2⟩

/-- A character-list literal makes a non-empty string. -/
theorem mk_ne_empty (l : List Char) (hl : l ≠ []) : String.mk l ≠ "" := by
  intro h
  exact hl (congrArg String.toList h)

/-- Stripping the trailing `p` of a range written with one. -/
theorem sedRangeCore_with_p (l : List Char) :
    sedRangeCore (String.mk (l ++ ['p'])) = l := by
  simp only [sedRangeCore]
  rw [show (String.mk (l ++ ['p'])).toList = l ++ ['p'] from rfl]
  rw [List.getLast?_concat, List.dropLast_concat]
  simp

/-- A bare range (not ending in `p`) is its own core. -/
theorem sedRangeCore_bare (l : List Char) (c : Char)
    (hc : l.getLast? = some c) (hcd : c.isDigit = true) :
    sedRangeCore (String.mk l) = l := by
  have hne : c ≠ 'p' := by
    intro h
    rw [h] at hcd
    exact absurd hcd (by decide)
  simp only [sedRangeCore]
  rw [show (String.mk l).toList = l from rfl, hc]
  simp [hne]

/-- The last element of `d1 ++ ',' :: d2` is the last element of `d2`. -/
theorem getLast?_append_comma (d1 d2 : List Char) (hd2 : d2 ≠ []) :
    (d1 ++ ',' :: d2).getLast? = d2.getLast? := by
  rw [show d1 ++ ',' :: d2 = (d1 ++ [',']) ++ d2 by simp]
  exact List.getLast?_append_of_ne_nil (d1 ++ [',']) hd2

/-- Validity of any range whose core splits as `<digits>,<digits>`. -/
theorem sed_valid_of_core_two (r : String) (d1 d2 : List Char)
    (hr : r ≠ "") (hcore : sedRangeCore r = d1 ++ ',' :: d2)
    (hd1 : d1 ≠ []) (hall1 : ∀ c ∈ d1, c.isDigit = true)
    (hd2 : d2 ≠ []) (hall2 : ∀ c ∈ d2, c.isDigit = true) :
    isValidSedRange (some r) = true := by
  simp only [isValidSedRange, if_neg hr, hcore]
  rw [takeWhile_append_stop Char.isDigit d1 ',' d2 hall1 (by decide),
      dropWhile_append_stop Char.isDigit d1 ',' d2 hall1 (by decide)]
  simp only [List.all_eq_true, Bool.and_eq_true, decide_eq_true_eq]
  exact ⟨hd1, hd2, hall2⟩

/-- Parsed bounds of any range whose core splits as `<digits>,<digits>`. -/
theorem sed_parse_of_core_two (r : String) (d1 d2 : List Char)
    (hr : r ≠ "") (hcore : sedRangeCore r = d1 ++ ',' :: d2)
    (hd1 : d1 ≠ []) (hall1 : ∀ c ∈ d1, c.isDigit = true)
    (hd2 : d2 ≠ []) (hall2 : ∀ c ∈ d2, c.isDigit = true) :
    parseSedRange (some r) =
      some (some (natOfDigits d1 - 1),
        if natOfDigits d2 ≠ 0 then some (natOfDigits d2 - 1)
        else some (natOfDigits d1 - 1)) := by
  have hv := sed_valid_of_core_two r d1 d2 hr hcore hd1 hall1 hd2 hall2
  simp only [parseSedRange, hv, Bool.not_true, Bool.false_eq_true, if_false, hcore]
  rw [takeWhile_append_stop Char.isDigit d1 ',' d2 hall1 (by decide),
      dropWhile_append_stop Char.isDigit d1 ',' d2 hall1 (by decide)]
  rfl

/-- Validity of any range whose core is a single digit run. -/
theorem sed_valid_of_core_one (r : String) (d1 : List Char)
    (hr : r ≠ "") (hcore : sedRangeCore r = d1)
    (hd1 : d1 ≠ []) (hall1 : ∀ c ∈ d1, c.isDigit = true) :
    isValidSedRange (some r) = true := by
  simp only [isValidSedRange, if_neg hr, hcore]
  rw [takeWhile_all Char.isDigit d1 hall1, dropWhile_all Char.isDigit d1 hall1]
  simp [hd1]

/-- Parsed bounds of any range whose core is a single digit run. -/
theorem sed_parse_of_core_one (r : String) (d1 : List Char)
    (hr : r ≠ "") (hcore : sedRangeCore r = d1)
    (hd1 : d1 ≠ []) (hall1 : ∀ c ∈ d1, c.isDigit = true) :
    parseSedRange (some r) =
      some (some (natOfDigits d1 - 1), some (natOfDigits d1 - 1)) := by
  have hv := sed_valid_of_core_one r d1 hr hcore hd1 hall1
  simp only [parseSedRange, hv, Bool.not_true, Bool.false_eq_true, if_false, hcore]
  rw [takeWhile_all Char.isDigit d1 hall1, dropWhile_all Char.isDigit d1 hall1]

/-- The sed branch of `summarizeMainTokens`, given a valid range and its
parsed bounds. -/
theorem sed_stage_of_parse (r p : String) (ls le : Option Nat)
    (hv : isValidSedRange (some r) = true)
    (hparse : parseSedRange (some r) = some (ls, le)) (hp : p ≠ "") :
    summarizeMainTokens ["sed", "-n", r, p] =
      { kind := ParsedKind.read, raw := joinTokens ["sed", "-n", r, p],
        name := some (shortDisplayPath p), path := some p,
        lineStart := ls, lineEnd := le } := by
  simp only [summarizeMainTokens, String.reduceEq, reduceIte]
  simp only [List.head?, List.get?, hv, hparse, hp]
  simp [hp]

/-- C8 (amended).  A stage `sed -n <range> <path>` with `<range>` matching
`^(\d+|\d+,\d+)p?$` — the trailing `p` optional — classifies as a read
whose bounds are *clamped* at zero: `lineStart = max(0, start-1)`; for a
two-number range with end ≥ 1, `lineEnd = end-1`, while an end of `0`
(being falsy) and a single-number range both default `lineEnd` to
`lineStart`.  All four range shapes are covered.  In particular
`sed -n 10,20p foo.ts` yields one read with `lineStart 9`, `lineEnd 19`. -/
theorem sed_range_read :
    (∀ (d1 d2 : List Char) (p : String),
      d1 ≠ [] → (∀ c ∈ d1, c.isDigit = true) →
      d2 ≠ [] → (∀ c ∈ d2, c.isDigit = true) → p ≠ "" →
      summarizeMainTokens ["sed", "-n", String.mk (d1 ++ ',' :: d2 ++ ['p']), p] =
        { kind := ParsedKind.read,
          raw := joinTokens ["sed", "-n", String.mk (d1 ++ ',' :: d2 ++ ['p']), p],
          name := some (shortDisplayPath p),
          path := some p,
          lineStart := some (natOfDigits d1 - 1),
          lineEnd := some (if natOfDigits d2 = 0 then natOfDigits d1 - 1
                           else natOfDigits d2 - 1) })
    ∧ (∀ (d1 d2 : List Char) (p : String),
      d1 ≠ [] → (∀ c ∈ d1, c.isDigit = true) →
      d2 ≠ [] → (∀ c ∈ d2, c.isDigit = true) → p ≠ "" →
      summarizeMainTokens ["sed", "-n", String.mk (d1 ++ ',' :: d2), p] =
        { kind := ParsedKind.read,
          raw := joinTokens ["sed", "-n", String.mk (d1 ++ ',' :: d2), p],
          name := some (shortDisplayPath p),
          path := some p,
          lineStart := some (natOfDigits d1 - 1),
          lineEnd := some (if natOfDigits d2 = 0 then natOfDigits d1 - 1
                           else natOfDigits d2 - 1) })
    ∧ (∀ (d1 : List Char) (p : String),
      d1 ≠ [] → (∀ c ∈ d1, c.isDigit = true) → p ≠ "" →
      summarizeMainTokens ["sed", "-n", String.mk (d1 ++ ['p']), p] =
        { kind := ParsedKind.read,
          raw := joinTokens ["sed", "-n", String.mk (d1 ++ ['p']), p],
          name := some (shortDisplayPath p),
          path := some p,
          lineStart := some (natOfDigits d1 - 1),
          lineEnd := some (natOfDigits d1 - 1) })
    ∧ (∀ (d1 : List Char) (p : String),
      d1 ≠ [] → (∀ c ∈ d1, c.isDigit = true) → p ≠ "" →
      summarizeMainTokens ["sed", "-n", String.mk d1, p] =
        { kind := ParsedKind.read,
          raw := joinTokens ["sed", "-n", String.mk d1, p],
          name := some (shortDisplayPath p),
          path := some p,
          lineStart := some (natOfDigits d1 - 1),
          lineEnd := some (natOfDigits d1 - 1) })
    ∧ summarizeCommand "sed -n 10,20p foo.ts" =
      { title := "Explored", summary := "Read foo.ts 10-20",
        displayCommand := "sed -n 10,20p foo.ts",
        parsed := [{ kind := ParsedKind.read, raw := "sed -n 10,20p foo.ts",
                     name := some "foo.ts", path := some "foo.ts",
                     lineStart := some 9, lineEnd := some 19 }] } := by
  refine ⟨?_, ?_, ?_, ?_, by decide⟩
  · intro d1 d2 p hd1 hall1 hd2 hall2 hp
    have hr : String.mk (d1 ++ ',' :: d2 ++ ['p']) ≠ "" := mk_ne_empty _ (by simp)
    have hcore : sedRangeCore (String.mk (d1 ++ ',' :: d2 ++ ['p'])) = d1 ++ ',' :: d2 := by
      rw [show d1 ++ ',' :: d2 ++ ['p'] = (d1 ++ ',' :: d2) ++ ['p'] by simp]
      exact sedRangeCore_with_p (d1 ++ ',' :: d2)
    have hv := sed_valid_of_core_two _ d1 d2 hr hcore hd1 hall1 hd2 hall2
    have hparse := sed_parse_of_core_two _ d1 d2 hr hcore hd1 hall1 hd2 hall2
    rw [sed_stage_of_parse _ p _ _ hv hparse hp]
    by_cases he : natOfDigits d2 = 0 <;> simp [he]
  · intro d1 d2 p hd1 hall1 hd2 hall2 hp
    have hr : String.mk (d1 ++ ',' :: d2) ≠ "" := mk_ne_empty _ (by simp)
    obtain ⟨c, hc, hcd⟩ := getLast?_digit d2 hd2 hall2
    have hcore : sedRangeCore (String.mk (d1 ++ ',' :: d2)) = d1 ++ ',' :: d2 :=
      sedRangeCore_bare _ c (by rw [getLast?_append_comma d1 d2 hd2, hc]) hcd
    have hv := sed_valid_of_core_two _ d1 d2 hr hcore hd1 hall1 hd2 hall2
    have hparse := sed_parse_of_core_two _ d1 d2 hr hcore hd1 hall1 hd2 hall2
    rw [sed_stage_of_parse _ p _ _ hv hparse hp]
    by_cases he : natOfDigits d2 = 0 <;> simp [he]
  · intro d1 p hd1 hall1 hp
    have hr : String.mk (d1 ++ ['p']) ≠ "" := mk_ne_empty _ (by simp)
    have hcore := sedRangeCore_with_p d1
    have hv := sed_valid_of_core_one _ d1 hr hcore hd1 hall1
    have hparse := sed_parse_of_core_one _ d1 hr hcore hd1 hall1
    exact sed_stage_of_parse _ p _ _ hv hparse hp
  · intro d1 p hd1 hall1 hp
    have hr : String.mk d1 ≠ "" := mk_ne_empty d1 hd1
    obtain ⟨c, hc, hcd⟩ := getLast?_digit d1 hd1 hall1
    have hcore : sedRangeCore (String.mk d1) = d1 := sedRangeCore_bare d1 c hc hcd
    have hv := sed_valid_of_core_one _ d1 hr hcore hd1 hall1
    have hparse := sed_parse_of_core_one _ d1 hr hcore hd1 hall1
    exact sed_stage_of_parse _ p _ _ hv hparse hp

/-- Witness for C8 at all four range shapes: `sed -n 10,20p foo.ts`,
`sed -n 10,20 foo.ts`, `sed -n 7p foo.ts` and `sed -n 7 foo.ts`. -/
theorem sed_range_read_witness :
    ((['1', '0'] : List Char) ≠ [] ∧ (∀ c ∈ (['1', '0'] : List Char), c.isDigit = true) ∧
      (['2', '0'] : List Char) ≠ [] ∧ (∀ c ∈ (['2', '0'] : List Char), c.isDigit = true) ∧
      ("foo.ts" : String) ≠ "" ∧
      summarizeMainTokens ["sed", "-n", String.mk (['1', '0'] ++ ',' :: ['2', '0'] ++ ['p']), "foo.ts"] =
        { kind := ParsedKind.read, raw := "sed -n 10,20p foo.ts",
          name := some "foo.ts", path := some "foo.ts",
          lineStart := some 9, lineEnd := some 19 })
    ∧ summarizeMainTokens ["sed", "-n", String.mk (['1', '0'] ++ ',' :: ['2', '0']), "foo.ts"] =
        { kind := ParsedKind.read, raw := "sed -n 10,20 foo.ts",
          name := some "foo.ts", path := some "foo.ts",
          lineStart := some 9, lineEnd := some 19 }
    ∧ summarizeMainTokens ["sed", "-n", String.mk (['7'] ++ ['p']), "foo.ts"] =
        { kind := ParsedKind.read, raw := "sed -n 7p foo.ts",
          name := some "foo.ts", path := some "foo.ts",
          lineStart := some 6, lineEnd := some 6 }
    ∧ summarizeMainTokens ["sed", "-n", String.mk ['7'], "foo.ts"] =
        { kind := ParsedKind.read, raw := "sed -n 7 foo.ts",
          name := some "foo.ts", path := some "foo.ts",
          lineStart := some 6, lineEnd := some 6 } :=
  ⟨⟨by decide, by decide, by decide, by decide, by decide, by
      have h := sed_range_read.1 ['1', '0'] ['2', '0'] "foo.ts"
        (by decide) (by decide) (by decide) (by decide) (by decide)
      simpa using h⟩,
   by
      have h := sed_range_read.2.1 ['1', '0'] ['2', '0'] "foo.ts"
        (by decide) (by decide) (by decide) (by decide) (by decide)
      simpa using h,
   by
      have h := sed_range_read.2.2.1 ['7'] "foo.ts" (by decide) (by decide) (by decide)
      simpa using h,
   by
      have h := sed_range_read.2.2.2.1 ['7'] "foo.ts" (by decide) (by decide) (by decide)
      simpa using h⟩

/-! ### C9: cd tracking and relative-path resolution -/

/-- C9.  `summarizeCommand "bash -lc \"cd src && cat index.ts\""` unwraps the
shell wrapper, consumes the `cd` stage without emitting a parsed entry, and
yields a single read whose path is `src/index.ts` with the display name
recomputed from the resolved path.  In general, the per-segment step joins a
`read` stage's path against the `cwd` accumulated from earlier `cd` stages
(`joinPaths` passes absolute paths through unchanged) and recomputes the
display name from the result. -/
theorem cd_tracking_read_paths :
    summarizeCommand "bash -lc \"cd src && cat index.ts\"" =
      { title := "Explored", summary := "Read index.ts",
        displayCommand := "bash -lc \"cd src && cat index.ts\"",
        parsed := [{ kind := ParsedKind.read, raw := "cat index.ts",
                     name := some "index.ts", path := some "src/index.ts",
                     lineStart := some 0 }] }
    ∧ (∀ (c : String) (ps : List ParsedCommand) (s0 : String) (srest : List String)
         (p : String),
        s0 ≠ "cd" →
        (summarizeMainTokens (s0 :: srest)).kind = ParsedKind.read →
        (summarizeMainTokens (s0 :: srest)).path = some p →
        stepSegment (some c, ps) (s0 :: srest) =
          (some c, ps ++ [{ summarizeMainTokens (s0 :: srest) with
                            path := some (joinPaths c p),
                            name := some (shortDisplayPath (joinPaths c p)) }])) := by
  refine ⟨by decide, ?_⟩
  intro c ps s0 srest p h0 hk hpath
  simp only [stepSegment, h0, hk, hpath]
  simp [h0]

/-- Witness for C9: the `cat index.ts` stage resolved against a tracked
`cwd` of `src`. -/
theorem cd_tracking_read_paths_witness :
    (("cat" : String) ≠ "cd" ∧
      (summarizeMainTokens ["cat", "index.ts"]).kind = ParsedKind.read ∧
      (summarizeMainTokens ["cat", "index.ts"]).path = some "index.ts") ∧
    stepSegment (some "src", []) ["cat", "index.ts"] =
      (some "src", [{ kind := ParsedKind.read, raw := "cat index.ts",
                      name := some "index.ts", path := some "src/index.ts",
                      lineStart := some 0 }]) :=
  ⟨⟨by decide, by decide, by decide⟩, by
    have h := cd_tracking_read_paths.2 "src" [] "cat" ["index.ts"] "index.ts"
      (by decide) (by decide) (by decide)
    simpa using h⟩


/-! ### C5: first-changed-line derivation from a diff -/

theorem len_dropWhile_le {α : Type} (p : α → Bool) (l : List α) :
    (l.dropWhile p).length ≤ l.length := by
  induction l with
  | nil => simp [List.dropWhile]
  | cons a t ih =>
    by_cases h : p a
    · rw [List.dropWhile_cons, if_pos h]
      exact Nat.le_trans ih (Nat.le_succ _)
    · rw [List.dropWhile_cons, if_neg h]

theorem dropWhile_head_false {α : Type} (p : α → Bool) (l : List α) (x : α) (t : List α)
    (h : l.dropWhile p = x :: t) : p x = false := by
  induction l with
  | nil => simp [List.dropWhile] at h
  | cons a l ih =>
    by_cases ha : p a
    · rw [List.dropWhile_cons, if_pos ha] at h
      exact ih h
    · rw [List.dropWhile_cons, if_neg ha] at h
      cases h
      exact Bool.of_not_eq_true ha

/-- The head of a list with a non-empty prefix. -/
theorem prefix_head_eq (a : Char) (as l : List Char)
    (h : (a :: as).isPrefixOf l = true) : ∃ t, l = a :: t := by
  cases l with
  | nil => exact Bool.noConfusion h
  | cons b t =>
    simp only [List.isPrefixOf, Bool.and_eq_true, beq_iff_eq] at h
    exact ⟨t, by rw [h.1]⟩

theorem single_not_isPrefixOf (c b : Char) (t : List Char) (h : c ≠ b) :
    [c].isPrefixOf (b :: t) = false := by
  simp only [List.isPrefixOf, Bool.and_eq_true, beq_iff_eq]
  simp [h]

/-- A line starting with `---` does not start with `+`. -/
theorem starts_minus3_not_plus (x : String) (h : strStartsWith x "---" = true) :
    strStartsWith x "+" = false := by
  unfold strStartsWith at h ⊢
  rw [show ("---" : String).toList = ['-', '-', '-'] from rfl] at h
  rw [show ("+" : String).toList = ['+'] from rfl]
  obtain ⟨t, ht⟩ := prefix_head_eq '-' ['-', '-'] x.toList h
  rw [ht]
  exact single_not_isPrefixOf '+' '-' t (by decide)

/-- A line starting with `+++` does not start with a space. -/
theorem starts_plus3_not_space (x : String) (h : strStartsWith x "+++" = true) :
    strStartsWith x " " = false := by
  unfold strStartsWith at h ⊢
  rw [show ("+++" : String).toList = ['+', '+', '+'] from rfl] at h
  rw [show (" " : String).toList = [' '] from rfl]
  obtain ⟨t, ht⟩ := prefix_head_eq '+' ['+', '+'] x.toList h
  rw [ht]
  exact single_not_isPrefixOf ' ' '+' t (by decide)

/-- A line starting with `---` does not start with a space. -/
theorem starts_minus3_not_space (x : String) (h : strStartsWith x "---" = true) :
    strStartsWith x " " = false := by
  unfold strStartsWith at h ⊢
  rw [show ("---" : String).toList = ['-', '-', '-'] from rfl] at h
  rw [show (" " : String).toList = [' '] from rfl]
  obtain ⟨t, ht⟩ := prefix_head_eq '-' ['-', '-'] x.toList h
  rw [ht]
  exact single_not_isPrefixOf ' ' '-' t (by decide)

/-- A line that is not a header has no header capture. -/
theorem headerCapture_of_not_header (x : String) (h : isHeaderLineB x = false) :
    headerCapture x = none := by
  cases hcx : headerCapture x with
  | none => rfl
  | some v =>
    rw [isHeaderLineB, hcx] at h
    simp at h

/-- The declarative scan ignores a prefix of non-header lines. -/
theorem spec_append_nonheader (pre : List String) (r : List String)
    (h : ∀ x ∈ pre, isHeaderLineB x = false) :
    specFirstAddedScan (pre ++ r) = specFirstAddedScan r := by
  induction pre with
  | nil => rfl
  | cons x pre ih =>
    have hx : headerCapture x = none :=
      headerCapture_of_not_header x (h x (List.mem_cons_self x pre))
    simp only [List.cons_append, specFirstAddedScan, hx]
    exact ih (fun y hy => h y (List.mem_cons_of_mem x hy))

/-- Scanning a header-free hunk body: the code's running counter returns the
header's target start plus the context-line count before the first added
line, or carries the full context count into the remainder. -/
theorem firstAddedGo_body (body : List String) : ∀ (c : Nat) (rest : List String),
    (∀ x ∈ body, isHeaderLineB x = false) →
    firstAddedGo (some c) (body ++ rest) =
      (match body.findIdx? isAddedLineB with
       | some k => some (c + ((body.take k).countP isCtxLineB))
       | none => firstAddedGo (some (c + body.countP isCtxLineB)) rest) := by
  induction body with
  | nil =>
    intro c rest h
    simp [List.findIdx?]
  | cons x body ih =>
    intro c rest h
    have hx : headerCapture x = none :=
      headerCapture_of_not_header x (h x (List.mem_cons_self x body))
    have hrec := ih c rest (fun y hy => h y (List.mem_cons_of_mem x hy))
    simp only [List.cons_append, firstAddedGo, hx]
    simp only [List.append_eq] at hrec ⊢
    by_cases hpm : (strStartsWith x "+++" || strStartsWith x "---") = true
    · rw [if_pos hpm]
      have hadd : isAddedLineB x = false := by
        rcases Bool.or_eq_true_iff.1 hpm with h3 | h3
        · simp [isAddedLineB, h3]
        · simp [isAddedLineB, starts_minus3_not_plus x h3]
      have hctx : isCtxLineB x = false := by
        rcases Bool.or_eq_true_iff.1 hpm with h3 | h3
        · simp [isCtxLineB, starts_plus3_not_space x h3]
        · simp [isCtxLineB, starts_minus3_not_space x h3]
      rw [hrec]
      cases hfi : body.findIdx? isAddedLineB with
      | some k => simp [List.findIdx?_cons, hadd, hfi, List.countP_cons, hctx]
      | none => simp [List.findIdx?_cons, hadd, hfi, List.countP_cons, hctx]
    · rw [if_neg hpm]
      have hnp3 : strStartsWith x "+++" = false := by
        rcases Bool.or_eq_false_iff.mp (Bool.of_not_eq_true hpm) with ⟨h3, _⟩
        exact h3
      by_cases hplus : strStartsWith x "+" = true
      · rw [if_pos hplus]
        have hadd : isAddedLineB x = true := by simp [isAddedLineB, hplus, hnp3]
        simp [List.findIdx?_cons, hadd]
      · rw [if_neg hplus]
        have hadd : isAddedLineB x = false := by
          simp [isAddedLineB, Bool.of_not_eq_true hplus]
        by_cases hsp : strStartsWith x " " = true
        · rw [if_pos hsp]
          have hctx : isCtxLineB x = true := by simp [isCtxLineB, hsp]
          have hrec2 := ih (c + 1) rest (fun y hy => h y (List.mem_cons_of_mem x hy))
          simp only [List.append_eq] at hrec2
          rw [hrec2]
          cases hfi : body.findIdx? isAddedLineB with
          | some k =>
            simp [List.findIdx?_cons, List.findIdx?_succ, hadd, hfi,
              List.countP_cons, hctx, List.take_succ_cons]
            all_goals omega
          | none =>
            have e3 : c + 1 + List.countP isCtxLineB body =
                c + (List.countP isCtxLineB body + 1) := by omega
            simp [List.findIdx?_cons, List.findIdx?_succ, hadd, hfi,
              List.countP_cons, hctx, e3]
        · rw [if_neg hsp]
          have hctx : isCtxLineB x = false := by
            simp [isCtxLineB, Bool.of_not_eq_true hsp]
          rw [hrec]
          cases hfi : body.findIdx? isAddedLineB with
          | some k => simp [List.findIdx?_cons, hadd, hfi, List.countP_cons, hctx]
          | none => simp [List.findIdx?_cons, hadd, hfi, List.countP_cons, hctx]

/-- The scanning loop of `parseFirstAddedLine` computes the declarative
per-hunk derivation. -/
theorem firstAddedGo_eq_spec (lines : List String) :
    firstAddedGo none lines = specFirstAddedScan lines := by
  suffices h : ∀ (n : Nat) (ls : List String), ls.length ≤ n →
      firstAddedGo none ls = specFirstAddedScan ls from h lines.length lines le_rfl
  intro n
  induction n with
  | zero =>
    intro ls hlen
    have : ls = [] := List.length_eq_zero.1 (Nat.le_zero.1 hlen)
    subst this
    rfl
  | succ n ih =>
    intro ls hlen
    cases ls with
    | nil => rfl
    | cons l t =>
      have hlt : t.length ≤ n := by
        simp only [List.length_cons] at hlen
        omega
      cases hc : headerCapture l with
      | none =>
        simp only [firstAddedGo, hc, specFirstAddedScan]
        exact ih t hlt
      | some c =>
        simp only [firstAddedGo, hc, specFirstAddedScan]
        have hmem : ∀ x ∈ t.takeWhile (fun x => !isHeaderLineB x), isHeaderLineB x = false := by
          intro x hx
          have := List.mem_takeWhile_imp hx
          simpa using this
        have hsplit : t = t.takeWhile (fun x => !isHeaderLineB x) ++
            t.dropWhile (fun x => !isHeaderLineB x) :=
          (List.takeWhile_append_dropWhile _ _).symm
        conv_lhs => rw [hsplit]
        rw [firstAddedGo_body _ c _ hmem]
        cases hfi : (t.takeWhile (fun x => !isHeaderLineB x)).findIdx? isAddedLineB with
        | some k => simp [hfi]
        | none =>
          simp only [hfi]
          have hspec : specFirstAddedScan t =
              specFirstAddedScan (t.dropWhile (fun x => !isHeaderLineB x)) := by
            conv_lhs => rw [hsplit]
            exact spec_append_nonheader _ _ hmem
          rw [hspec]
          have hlend : (t.dropWhile (fun x => !isHeaderLineB x)).length ≤ n :=
            Nat.le_trans (len_dropWhile_le _ t) hlt
          cases hr : t.dropWhile (fun x => !isHeaderLineB x) with
          | nil => rfl
          | cons h2 t2 =>
            have hh2 : isHeaderLineB h2 = true := by
              have := dropWhile_head_false (fun x => !isHeaderLineB x) t h2 t2 hr
              simpa using this
            obtain ⟨c2, hc2⟩ := Option.isSome_iff_exists.1 (by
              simpa [isHeaderLineB] using hh2)
            have e1 : firstAddedGo
                (some (c + (t.takeWhile (fun x => !isHeaderLineB x)).countP isCtxLineB))
                (h2 :: t2) = firstAddedGo none (h2 :: t2) := by
              simp [firstAddedGo, hc2]
            rw [e1, ← hr]
            exact ih _ hlend

/-- C5 counterexample.  For a diff whose first hunk contains no added line
but whose second hunk does, the code reports the added line of the *second*
hunk (here new-file line 10), not the first hunk's target start (1) as the
claim's "within the first hunk, falling back to the first hunk's target
start" requires. -/
theorem first_added_first_hunk_cex :
    derivedLine "@@ -1,2 +1 @@\n a\n-b\n@@ -10 +9,2 @@\n c\n+d" = some 10 ∧
    claimFirstHunkLine "@@ -1,2 +1 @@\n a\n-b\n@@ -10 +9,2 @@\n c\n+d" = some 1 := by
  decide

/-- C5 (amended).  For every change with a resolved diff, the derived
first-changed line equals the new-file line number of the first added line
after *any* hunk header, scanning hunks in order (the hunk's target start
plus the context lines preceding the addition within that hunk); when no
added line exists anywhere, it falls back to the target-start capture of
the first hunk-header pattern in the diff text (`parseFirstTargetLine`).
When no diff resolves, the line is absent.  For the single-hunk diff
`@@ -1,3 +1,4 @@` immediately followed by one added line, the derived line
equals the hunk's starting line number 1. -/
theorem derivedLine_spec :
    (∀ d : String, derivedLine d =
      (match specFirstAddedScan (jsSplitCRLF d) with
       | some n => some n
       | none => parseFirstTargetLine d))
    ∧ (∀ (dp : DiffProvider) (cwd : Option String) (ch : FileChange),
        (enrichChange dp cwd ch).line =
          Option.elim (inferredDiffOf dp cwd ch) none (fun d => derivedLine d))
    ∧ derivedLine "@@ -1,3 +1,4 @@\n+inserted line" = some 1 := by
  refine ⟨?_, ?_, by decide⟩
  · intro d
    simp only [derivedLine, parseFirstAddedLine, firstAddedGo_eq_spec]
  · intro dp cwd ch
    simp only [enrichChange]
    cases h : inferredDiffOf dp cwd ch <;> simp [h]

end Relay
